import Mathlib

/-!
Shallow embedding of the `union-find` Rust crate (`src/lib.rs`) and proofs
about its operations.

Modelling conventions:
  * `Vec<Element>` becomes `List Element`; `usize` becomes `Nat`.
  * A method taking `&mut self` becomes a function from the old store to the
    new store (paired with its return value where the Rust function returns
    one; `union` returns `()` in the source).
  * A Rust indexing operation `self.backing[i]` that could go out of bounds
    (a panic) is modelled with `List` optional indexing: the whole operation
    returns `none` when the source would panic.  Likewise the two
    `Option::unwrap` calls inside `union` produce `none` when the unwrapped
    value is `None`.
  * The two `loop`s inside `find` are modelled with explicit fuel
    `2 * backing.length + 2`.  The first loop of the source re-reads
    `self.backing[element_id]` (the starting index) on every iteration and
    therefore stops after at most two iterations; the second loop visits each
    element at most twice before reaching a self-parent element, so the given
    fuel is never exhausted.  When fuel runs out the loop stops and returns
    the state reached so far.
-/

/-- One record of the backing vector: `struct Element { parent: usize, rank: usize }`. -/
structure Element where
  parent : Nat
  rank : Nat
deriving DecidableEq

/-- `pub struct UnionFind { backing: Vec<Element> }`. -/
structure UnionFind where
  backing : List Element
deriving DecidableEq

/-- Number of elements currently stored (`self.backing.len()`). -/
def UnionFind.size (uf : UnionFind) : Nat :=
  uf.backing.length

/-- `UnionFind::new(size)`: `size` records, each its own root with rank 0. -/
def UnionFind.new (size : Nat) : UnionFind :=
  ⟨(List.range size).map (fun i => ⟨i, 0⟩)⟩

/-- `UnionFind::fresh`: append one fresh self-parent record of rank 0 and
return (new store, returned id). -/
def UnionFind.fresh (uf : UnionFind) : UnionFind × Nat :=
  (⟨uf.backing ++ [⟨uf.backing.length, 0⟩]⟩, uf.backing.length)

/-- The parent field of record `i`; out-of-range indices default to `i`
itself.  This accessor is only used in statements where `i` is in range,
or where the default is irrelevant. -/
def UnionFind.parentD (uf : UnionFind) (i : Nat) : Nat :=
  match uf.backing[i]? with
  | some e => e.parent
  | none => i

/-- The rank field of record `i` (0 when out of range). -/
def UnionFind.rankD (uf : UnionFind) (i : Nat) : Nat :=
  match uf.backing[i]? with
  | some e => e.rank
  | none => 0

/-- `self.backing[i].parent = v`: update the parent field of record `i`,
keeping its rank.  A no-op out of range (the source would have panicked on
an earlier read of the same index before ever performing such a write). -/
def UnionFind.setParent (uf : UnionFind) (i v : Nat) : UnionFind :=
  match uf.backing[i]? with
  | some e => ⟨uf.backing.set i ⟨v, e.rank⟩⟩
  | none => uf

/-- `self.backing[i].rank = v`: update the rank field of record `i`,
keeping its parent. -/
def UnionFind.setRank (uf : UnionFind) (i v : Nat) : UnionFind :=
  match uf.backing[i]? with
  | some e => ⟨uf.backing.set i ⟨e.parent, v⟩⟩
  | none => uf

/-- The first loop of `UnionFind::find`.  Note that the source reads
`self.backing[element_id]` — the starting index, not `current` — on every
iteration, so the loop stops after at most two iterations. -/
def UnionFind.findRootLoop (uf : UnionFind) (elementId current : Nat) : Nat → Option Nat
  | 0 => some current
  | fuel + 1 =>
    match uf.backing[elementId]? with
    | none => none
    | some e =>
      if e.parent = current then some current
      else uf.findRootLoop elementId e.parent fuel

/-- The second loop of `UnionFind::find`: walk from `current`, rewriting the
parent of every non-self-parent element visited to `rep`, then stepping to
the element's previous parent. -/
def UnionFind.compressLoop (uf : UnionFind) (current rep : Nat) : Nat → Option UnionFind
  | 0 => some uf
  | fuel + 1 =>
    match uf.backing[current]? with
    | none => none
    | some e =>
      if current = e.parent then some uf
      else (uf.setParent current rep).compressLoop e.parent rep fuel

/-- `UnionFind::find(element_id)`.  The outer `Option` models panics (never
`none` when every parent stored in the structure is in range); the inner
`Option Nat` is the source's `Option<usize>` return value, `none` meaning
the id is out of range. -/
def UnionFind.find (uf : UnionFind) (elementId : Nat) : Option (Option Nat × UnionFind) :=
  if elementId ≥ uf.backing.length then some (none, uf)
  else
    match uf.findRootLoop elementId elementId (2 * uf.backing.length + 2) with
    | none => none
    | some rep =>
      match uf.compressLoop elementId rep (2 * uf.backing.length + 2) with
      | none => none
      | some uf1 => some (some rep, uf1)

/-- `UnionFind::union(element1, element2)`.  The source returns `()`; the
outer `Option` models panics (out-of-bounds indexing or a failing
`unwrap`). -/
def UnionFind.union (uf : UnionFind) (element1 element2 : Nat) : Option (UnionFind × Unit) :=
  if element1 ≥ uf.backing.length ∨ element2 ≥ uf.backing.length then some (uf, ())
  else
    match uf.find element1 with
    | none => none
    | some (o1, uf1) =>
      match o1 with
      | none => none
      | some rep1 =>
        match uf1.find element2 with
        | none => none
        | some (o2, uf2) =>
          match o2 with
          | none => none
          | some rep2 =>
            if rep1 = rep2 then some (uf2, ())
            else
              match uf2.backing[rep1]?, uf2.backing[rep2]? with
              | some el1, some el2 =>
                if el1.rank < el2.rank then some (uf2.setParent rep1 rep2, ())
                else if el1.rank > el2.rank then some (uf2.setParent rep2 rep1, ())
                else
                  match (uf2.setParent rep1 rep2).backing[rep2]? with
                  | some el2b =>
                    some ((uf2.setParent rep1 rep2).setRank rep2 (el2b.rank + 1), ())
                  | none => none
              | _, _ => none

/-- Iterated calls of `find` on the same id: `findIter uf x k` is the result
of the `(k+1)`-st call, each call acting on the state left by the previous
one. -/
def UnionFind.findIter (uf : UnionFind) (x : Nat) : Nat → Option (Option Nat × UnionFind)
  | 0 => uf.find x
  | k + 1 =>
    match uf.findIter x k with
    | some (_, u) => u.find x
    | none => none

/-- Follow parent links `k` times starting from `i`. -/
def UnionFind.parentIter (uf : UnionFind) : Nat → Nat → Nat
  | 0, i => i
  | k + 1, i => uf.parentIter k (uf.parentD i)

/-- `i` is a root: its parent field equals its own id. -/
def UnionFind.isRoot (uf : UnionFind) (i : Nat) : Prop :=
  uf.parentD i = i

instance (uf : UnionFind) (i : Nat) : Decidable (uf.isRoot i) := by
  unfold UnionFind.isRoot; infer_instance

/-- Every parent field stored in the vector is strictly below the vector's
length. -/
def UnionFind.inRange (uf : UnionFind) : Prop :=
  ∀ i, i < uf.size → uf.parentD i < uf.size

/-- From every element, following parent links reaches a root in finitely
many steps (the forest invariant; it rules out any cycle other than the
self-loop at a root). -/
def UnionFind.Rooted (uf : UnionFind) : Prop :=
  ∀ i, i < uf.size → ∃ k, uf.isRoot (uf.parentIter k i)

/-- Stores reachable from a constructor by the public API. -/
inductive UnionFind.Reachable : UnionFind → Prop
  | mkNew (n : Nat) : UnionFind.Reachable (UnionFind.new n)
  | mkFresh {uf : UnionFind} : UnionFind.Reachable uf →
      UnionFind.Reachable (UnionFind.fresh uf).1
  | stepFind {uf : UnionFind} {id : Nat} {o : Option Nat} {uf1 : UnionFind} :
      UnionFind.Reachable uf → uf.find id = some (o, uf1) → UnionFind.Reachable uf1
  | stepUnion {uf : UnionFind} {e1 e2 : Nat} {uf1 : UnionFind} :
      UnionFind.Reachable uf → uf.union e1 e2 = some (uf1, ()) → UnionFind.Reachable uf1

/-! ### Concrete stores used as failing inputs

`ufA` is the store reached from `UnionFind.new 4` by
`union 0 1; union 2 3; union 1 3`; it contains the parent chain
`0 → 1 → 3` with `3` the root of the single merged set `{0, 1, 2, 3}`.
`ufB` is the store `find ufA 0` leaves behind. -/

/-- State after `union 0 1` on `UnionFind.new 4`. -/
def ufA1 : UnionFind := ⟨[⟨1, 0⟩, ⟨1, 1⟩, ⟨2, 0⟩, ⟨3, 0⟩]⟩

/-- State after `union 2 3` on `ufA1`. -/
def ufA2 : UnionFind := ⟨[⟨1, 0⟩, ⟨1, 1⟩, ⟨3, 0⟩, ⟨3, 1⟩]⟩

/-- State after `union 1 3` on `ufA2`: the parent chain is `0 → 1 → 3`. -/
def ufA : UnionFind := ⟨[⟨1, 0⟩, ⟨3, 1⟩, ⟨3, 0⟩, ⟨3, 2⟩]⟩

/-- The state `find ufA 0` leaves behind: element `1` has become a root. -/
def ufB : UnionFind := ⟨[⟨1, 0⟩, ⟨1, 1⟩, ⟨3, 0⟩, ⟨3, 2⟩]⟩

lemma reachable_ufA1 : ufA1.Reachable :=
  UnionFind.Reachable.stepUnion (UnionFind.Reachable.mkNew 4)
    (show (UnionFind.new 4).union 0 1 = some (ufA1, ()) by decide)

lemma reachable_ufA2 : ufA2.Reachable :=
  UnionFind.Reachable.stepUnion reachable_ufA1
    (show ufA1.union 2 3 = some (ufA2, ()) by decide)

lemma reachable_ufA : ufA.Reachable :=
  UnionFind.Reachable.stepUnion reachable_ufA2
    (show ufA2.union 1 3 = some (ufA, ()) by decide)

/-! ### Claims refuted by concrete evaluation -/

/-- Claim C1: for every store and in-range id, `find id` returns the id of
the root of the set containing `id` (an element whose parent equals its own
id, reached from `id` by parent links).  Refuted: on the reachable store
`ufA` (parent chain `0 → 1 → 3`), the root reached from `0` by parent links
is `3`, but `find 0` returns `1`, which is not a root of the store the call
was made on.  The first loop of the source reads `backing[element_id]`
instead of `backing[current]`, so it stops at the direct parent of the
queried element. -/
theorem claim_C1_find_returns_non_root :
    ufA.Reachable ∧
    ufA.find 0 = some (some 1, ufB) ∧
    ufA.parentIter 2 0 = 3 ∧ ufA.isRoot 3 ∧ ¬ ufA.isRoot 1 ∧ (1 : Nat) ≠ 3 :=
  ⟨reachable_ufA, by decide, by decide, by decide, by decide, by decide⟩

/-- Claim C2: after `union x y` succeeds, `find x = find y`.  Refuted: on
the reachable store `ufA`, `union 0 2` succeeds (and returns the state
`ufA` itself), yet immediately afterwards `find 0` returns `1` while
`find 2` (called on the state `find 0` left behind) returns `3`. -/
theorem claim_C2_union_then_find_disagrees :
    ufA.Reachable ∧
    ufA.union 0 2 = some (ufA, ()) ∧
    ufA.find 0 = some (some 1, ufB) ∧
    ufB.find 2 = some (some 3, ufB) ∧
    (some 1 : Option Nat) ≠ some 3 :=
  ⟨reachable_ufA, by decide, by decide, by decide, by decide⟩

/-- Claim C3: every element visited by `find id` has its parent rewritten to
point directly to the set's root.  Refuted: on `ufA` (chain `0 → 1 → 3`,
root `3`), `find 0` visits `0` and `1`, but leaves `0` pointing at `1` —
the compression target is the queried element's original direct parent, not
the root — and rewrites `1` into a fresh root instead of pointing it at
`3`. -/
theorem claim_C3_compression_misses_root :
    ufA.find 0 = some (some 1, ufB) ∧
    ufA.parentIter 2 0 = 3 ∧ ufA.isRoot 3 ∧
    ufB.parentD 0 = 1 ∧ ufB.parentD 1 = 1 ∧ (1 : Nat) ≠ 3 := by
  refine ⟨by decide, by decide, by decide, by decide, by decide, by decide⟩

/-- Claim C7: no operation ever turns a non-root element back into a root.
Refuted: in the reachable store `ufA`, element `1` is a non-root (its
parent is `3`), yet after `find 0` element `1` is a root again. -/
theorem claim_C7_find_turns_non_root_into_root :
    ufA.Reachable ∧ ¬ ufA.isRoot 1 ∧
    ufA.find 0 = some (some 1, ufB) ∧ ufB.isRoot 1 :=
  ⟨reachable_ufA, by decide, by decide, by decide⟩

/-- Claim C4, counterexample part: the claim says an out-of-range id makes
`union` fail by reporting a no-such-element error.  In the source `union`
returns `()` unconditionally: the out-of-range call `union 5 0` on a
two-element store returns exactly the same non-error value as the valid
call `union 0 0`, so no error is reported (the state is indeed left
unchanged). -/
theorem claim_C4_union_reports_no_error :
    (UnionFind.new 2).union 5 0 = (UnionFind.new 2).union 0 0 ∧
    (UnionFind.new 2).union 5 0 = some (UnionFind.new 2, ()) := by
  exact ⟨by decide, by decide⟩

/-- Claim C5, counterexample part: the claim says `union` returns the id of
the surviving representative.  In the source `union` returns `()`: merging
`{0}` and `{1}` in a two-element store (survivor `1`) and merging `{1}` and
`{2}` in a three-element store (survivor `2`) produce identical return
values, so the return value cannot be the surviving representative's id. -/
theorem claim_C5_union_returns_unit :
    (UnionFind.union (UnionFind.new 2) 0 1).map Prod.snd
      = (UnionFind.union (UnionFind.new 3) 1 2).map Prod.snd ∧
    UnionFind.union (UnionFind.new 2) 0 1 = some (⟨[⟨1, 0⟩, ⟨1, 1⟩]⟩, ()) ∧
    UnionFind.union (UnionFind.new 3) 1 2
      = some (⟨[⟨0, 0⟩, ⟨2, 0⟩, ⟨2, 1⟩]⟩, ()) := by
  exact ⟨by decide, by decide, by decide⟩

/-! ### Basic lemmas about the accessors and setters -/

lemma list_set_of_getElem_eq {α : Type} (l : List α) (i : Nat) (a : α)
    (h : l[i]? = some a) : l.set i a = l := by
  induction l generalizing i with
  | nil => simp at h
  | cons x xs ih =>
    cases i with
    | zero => simp at h; simp [h]
    | succ j => simp at h; simp [ih j h]

lemma UnionFind.parentD_eq {uf : UnionFind} {i : Nat} {e : Element}
    (h : uf.backing[i]? = some e) : uf.parentD i = e.parent := by
  simp [UnionFind.parentD, h]

lemma UnionFind.rankD_eq {uf : UnionFind} {i : Nat} {e : Element}
    (h : uf.backing[i]? = some e) : uf.rankD i = e.rank := by
  simp [UnionFind.rankD, h]

lemma UnionFind.getElem_isSome {uf : UnionFind} {i : Nat} (h : i < uf.size) :
    ∃ e, uf.backing[i]? = some e := by
  have h2 : i < uf.backing.length := h
  rw [List.getElem?_eq_getElem h2]
  exact ⟨_, rfl⟩

lemma UnionFind.setParent_size (uf : UnionFind) (i v : Nat) :
    (uf.setParent i v).size = uf.size := by
  unfold UnionFind.setParent
  cases h : uf.backing[i]? <;> simp [UnionFind.size]

lemma UnionFind.setRank_size (uf : UnionFind) (i v : Nat) :
    (uf.setRank i v).size = uf.size := by
  unfold UnionFind.setRank
  cases h : uf.backing[i]? <;> simp [UnionFind.size]

lemma UnionFind.setParent_parentD_self {uf : UnionFind} {i : Nat} (v : Nat)
    (h : i < uf.size) : (uf.setParent i v).parentD i = v := by
  rcases uf.getElem_isSome h with ⟨e, he⟩
  simp [UnionFind.setParent, he, UnionFind.parentD, List.getElem?_set_self h]

lemma UnionFind.setParent_parentD_ne {uf : UnionFind} {i j : Nat} (v : Nat)
    (h : i ≠ j) : (uf.setParent i v).parentD j = uf.parentD j := by
  unfold UnionFind.setParent
  cases he : uf.backing[i]? with
  | none => rfl
  | some e => simp [UnionFind.parentD, List.getElem?_set_ne h]

lemma UnionFind.setParent_rankD (uf : UnionFind) (i v j : Nat) :
    (uf.setParent i v).rankD j = uf.rankD j := by
  unfold UnionFind.setParent
  cases he : uf.backing[i]? with
  | none => rfl
  | some e =>
    by_cases hij : i = j
    · subst hij
      have hlt : i < uf.backing.length := (List.getElem?_eq_some_iff.mp he).1
      simp [UnionFind.rankD, List.getElem?_set_self hlt, he]
    · simp [UnionFind.rankD, List.getElem?_set_ne hij]

lemma UnionFind.setRank_parentD (uf : UnionFind) (i v j : Nat) :
    (uf.setRank i v).parentD j = uf.parentD j := by
  unfold UnionFind.setRank
  cases he : uf.backing[i]? with
  | none => rfl
  | some e =>
    by_cases hij : i = j
    · subst hij
      have hlt : i < uf.backing.length := (List.getElem?_eq_some_iff.mp he).1
      simp [UnionFind.parentD, List.getElem?_set_self hlt, he]
    · simp [UnionFind.parentD, List.getElem?_set_ne hij]

lemma UnionFind.setRank_rankD_self {uf : UnionFind} {i : Nat} (v : Nat)
    (h : i < uf.size) : (uf.setRank i v).rankD i = v := by
  rcases uf.getElem_isSome h with ⟨e, he⟩
  simp [UnionFind.setRank, he, UnionFind.rankD, List.getElem?_set_self h]

lemma UnionFind.setRank_rankD_ne {uf : UnionFind} {i j : Nat} (v : Nat)
    (h : i ≠ j) : (uf.setRank i v).rankD j = uf.rankD j := by
  unfold UnionFind.setRank
  cases he : uf.backing[i]? with
  | none => rfl
  | some e => simp [UnionFind.rankD, List.getElem?_set_ne h]

lemma UnionFind.setParent_noop {uf : UnionFind} {i v : Nat} {e : Element}
    (he : uf.backing[i]? = some e) (hv : e.parent = v) :
    uf.setParent i v = uf := by
  have h2 : (⟨v, e.rank⟩ : Element) = e := by cases e; cases hv; rfl
  simp only [UnionFind.setParent, he]
  rw [h2, list_set_of_getElem_eq uf.backing i e he]

/-! ### Lemmas about the compression loop -/

lemma UnionFind.compressLoop_size {fuel : Nat} :
    ∀ {uf : UnionFind} {c r : Nat} {uf' : UnionFind},
      uf.compressLoop c r fuel = some uf' → uf'.size = uf.size := by
  induction fuel with
  | zero =>
    intro uf c r uf' h
    simp only [UnionFind.compressLoop] at h
    cases h; rfl
  | succ fuel ih =>
    intro uf c r uf' h
    simp only [UnionFind.compressLoop] at h
    cases hget : uf.backing[c]? with
    | none => rw [hget] at h; cases h
    | some e =>
      rw [hget] at h
      by_cases hc : c = e.parent
      · simp only [if_pos hc] at h; cases h; rfl
      · simp only [if_neg hc] at h
        rw [ih h, UnionFind.setParent_size]

lemma UnionFind.compressLoop_rankD {fuel : Nat} :
    ∀ {uf : UnionFind} {c r : Nat} {uf' : UnionFind},
      uf.compressLoop c r fuel = some uf' → ∀ j, uf'.rankD j = uf.rankD j := by
  induction fuel with
  | zero =>
    intro uf c r uf' h j
    simp only [UnionFind.compressLoop] at h
    cases h; rfl
  | succ fuel ih =>
    intro uf c r uf' h j
    simp only [UnionFind.compressLoop] at h
    cases hget : uf.backing[c]? with
    | none => rw [hget] at h; cases h
    | some e =>
      rw [hget] at h
      by_cases hc : c = e.parent
      · simp only [if_pos hc] at h; cases h; rfl
      · simp only [if_neg hc] at h
        rw [ih h j, UnionFind.setParent_rankD]

lemma UnionFind.compressLoop_isRoot {fuel : Nat} :
    ∀ {uf : UnionFind} {c r x : Nat} {uf' : UnionFind},
      uf.compressLoop c r fuel = some uf' → uf.isRoot x → uf'.isRoot x := by
  induction fuel with
  | zero =>
    intro uf c r x uf' h hx
    simp only [UnionFind.compressLoop] at h
    cases h; exact hx
  | succ fuel ih =>
    intro uf c r x uf' h hx
    simp only [UnionFind.compressLoop] at h
    cases hget : uf.backing[c]? with
    | none => rw [hget] at h; cases h
    | some e =>
      rw [hget] at h
      by_cases hc : c = e.parent
      · simp only [if_pos hc] at h; cases h; exact hx
      · simp only [if_neg hc] at h
        refine ih h ?_
        have hcx : c ≠ x := by
          intro hcx
          subst hcx
          exact hc ((uf.parentD_eq hget).symm.trans hx).symm
        unfold UnionFind.isRoot
        rw [UnionFind.setParent_parentD_ne r hcx]
        exact hx

lemma UnionFind.compressLoop_parentD_fixed {fuel : Nat} :
    ∀ {uf : UnionFind} {c r x : Nat} {uf' : UnionFind},
      uf.compressLoop c r fuel = some uf' → uf.parentD x = r → uf'.parentD x = r := by
  induction fuel with
  | zero =>
    intro uf c r x uf' h hx
    simp only [UnionFind.compressLoop] at h
    cases h; exact hx
  | succ fuel ih =>
    intro uf c r x uf' h hx
    simp only [UnionFind.compressLoop] at h
    cases hget : uf.backing[c]? with
    | none => rw [hget] at h; cases h
    | some e =>
      rw [hget] at h
      by_cases hc : c = e.parent
      · simp only [if_pos hc] at h; cases h; exact hx
      · simp only [if_neg hc] at h
        refine ih h ?_
        by_cases hcx : c = x
        · subst hcx
          exact UnionFind.setParent_parentD_self r ((List.getElem?_eq_some_iff.mp hget).1)
        · rw [UnionFind.setParent_parentD_ne r hcx]; exact hx

/-! ### Characterization of `find` -/

lemma UnionFind.findRootLoop_eq {uf : UnionFind} {id : Nat} {e : Element}
    (hget : uf.backing[id]? = some e) (fuel : Nat) :
    uf.findRootLoop id id (fuel + 2) = some e.parent := by
  simp only [UnionFind.findRootLoop, hget]
  by_cases hp : e.parent = id
  · simp [hp]
  · simp [hp]

lemma UnionFind.find_oor {uf : UnionFind} {id : Nat} (h : uf.size ≤ id) :
    uf.find id = some (none, uf) := by
  have h2 : id ≥ uf.backing.length := h
  simp [UnionFind.find, h2]

lemma UnionFind.find_eq_of_lt {uf : UnionFind} {id : Nat} {e : Element}
    (hget : uf.backing[id]? = some e) (hlt : id < uf.size) :
    uf.find id =
      match uf.compressLoop id e.parent (2 * uf.backing.length + 2) with
      | none => none
      | some uf1 => some (some e.parent, uf1) := by
  have hn : ¬ (id ≥ uf.backing.length) := not_le.mpr hlt
  unfold UnionFind.find
  rw [if_neg hn, uf.findRootLoop_eq hget]

lemma UnionFind.find_some {uf : UnionFind} {id : Nat} {o : Option Nat} {uf' : UnionFind}
    (h : uf.find id = some (o, uf')) (hlt : id < uf.size) :
    o = some (uf.parentD id) ∧
      uf.compressLoop id (uf.parentD id) (2 * uf.backing.length + 2) = some uf' := by
  rcases uf.getElem_isSome hlt with ⟨e, hget⟩
  rw [uf.find_eq_of_lt hget hlt] at h
  rw [uf.parentD_eq hget]
  cases hc : uf.compressLoop id e.parent (2 * uf.backing.length + 2) with
  | none => rw [hc] at h; cases h
  | some uf1 =>
    rw [hc] at h
    simp only [Option.some.injEq, Prod.mk.injEq] at h
    exact ⟨h.1.symm, by rw [h.2]⟩

lemma UnionFind.find_of_compress {uf : UnionFind} {id : Nat} {uf' : UnionFind}
    (hlt : id < uf.size)
    (h : uf.compressLoop id (uf.parentD id) (2 * uf.backing.length + 2) = some uf') :
    uf.find id = some (some (uf.parentD id), uf') := by
  rcases uf.getElem_isSome hlt with ⟨e, hget⟩
  rw [uf.parentD_eq hget] at h ⊢
  rw [uf.find_eq_of_lt hget hlt, h]

lemma UnionFind.find_size {uf : UnionFind} {id : Nat} {o : Option Nat} {uf' : UnionFind}
    (h : uf.find id = some (o, uf')) : uf'.size = uf.size := by
  by_cases hlt : id < uf.size
  · exact UnionFind.compressLoop_size (uf.find_some h hlt).2
  · rw [uf.find_oor (not_lt.mp hlt)] at h; cases h; rfl

lemma UnionFind.find_rankD {uf : UnionFind} {id : Nat} {o : Option Nat} {uf' : UnionFind}
    (h : uf.find id = some (o, uf')) : ∀ j, uf'.rankD j = uf.rankD j := by
  by_cases hlt : id < uf.size
  · exact UnionFind.compressLoop_rankD (uf.find_some h hlt).2
  · rw [uf.find_oor (not_lt.mp hlt)] at h; cases h; intro j; rfl

lemma UnionFind.find_isRoot {uf : UnionFind} {id : Nat} {o : Option Nat} {uf' : UnionFind}
    (h : uf.find id = some (o, uf')) {x : Nat} (hx : uf.isRoot x) : uf'.isRoot x := by
  by_cases hlt : id < uf.size
  · exact UnionFind.compressLoop_isRoot (uf.find_some h hlt).2 hx
  · rw [uf.find_oor (not_lt.mp hlt)] at h; cases h; exact hx

lemma UnionFind.find_parentD_self {uf : UnionFind} {id : Nat} {o : Option Nat}
    {uf' : UnionFind} (h : uf.find id = some (o, uf')) :
    uf'.parentD id = uf.parentD id := by
  by_cases hlt : id < uf.size
  · exact UnionFind.compressLoop_parentD_fixed (uf.find_some h hlt).2 rfl
  · rw [uf.find_oor (not_lt.mp hlt)] at h; cases h; rfl

/-- The value `find` returns is always a root of the store `find` leaves
behind: either the queried tree was flat, or the compression loop itself
turns the returned element into a fresh root. -/
lemma UnionFind.find_rep_isRoot {uf : UnionFind} {id rep : Nat} {uf' : UnionFind}
    (h : uf.find id = some (some rep, uf')) : uf'.isRoot rep := by
  by_cases hlt : id < uf.size
  · obtain ⟨ho, hc⟩ := uf.find_some h hlt
    have hrep : rep = uf.parentD id := by injection ho
    subst hrep
    rcases uf.getElem_isSome hlt with ⟨e, hget⟩
    have hep : e.parent = uf.parentD id := (uf.parentD_eq hget).symm
    rw [← hep] at hc ⊢
    simp only [UnionFind.compressLoop, hget] at hc
    by_cases h1 : id = e.parent
    · rw [if_pos h1] at hc
      cases hc
      show uf.parentD e.parent = e.parent
      rw [← h1, uf.parentD_eq hget]
      exact h1.symm
    · rw [if_neg h1] at hc
      cases hget2 : (uf.setParent id e.parent).backing[e.parent]? with
      | none => rw [hget2] at hc; cases hc
      | some e2 =>
        simp only [hget2] at hc
        by_cases h2 : e.parent = e2.parent
        · rw [if_pos h2] at hc
          cases hc
          show (uf.setParent id e.parent).parentD e.parent = e.parent
          rw [UnionFind.parentD_eq hget2]
          exact h2.symm
        · rw [if_neg h2] at hc
          refine UnionFind.compressLoop_isRoot hc ?_
          show ((uf.setParent id e.parent).setParent e.parent e.parent).parentD e.parent
              = e.parent
          exact UnionFind.setParent_parentD_self e.parent
            ((List.getElem?_eq_some_iff.mp hget2).1)
  · rw [uf.find_oor (not_lt.mp hlt)] at h; cases h

/-- A second `find` on the same id returns the same representative and
leaves the store exactly as the first call left it. -/
lemma UnionFind.find_stable {uf : UnionFind} {x : Nat} {o : Option Nat} {uf' : UnionFind}
    (h : uf.find x = some (o, uf')) : uf'.find x = some (o, uf') := by
  by_cases hlt : x < uf.size
  · obtain ⟨ho, hc⟩ := uf.find_some h hlt
    subst ho
    have hsz : uf'.size = uf.size := UnionFind.compressLoop_size hc
    have hlt' : x < uf'.size := by rw [hsz]; exact hlt
    have hpar : uf'.parentD x = uf.parentD x :=
      UnionFind.compressLoop_parentD_fixed hc rfl
    have hroot : uf'.isRoot (uf.parentD x) := uf.find_rep_isRoot h
    rcases uf'.getElem_isSome hlt' with ⟨e', hget'⟩
    have hep' : e'.parent = uf'.parentD x := (uf'.parentD_eq hget').symm
    have hcomp : uf'.compressLoop x (uf'.parentD x) (2 * uf'.backing.length + 2)
        = some uf' := by
      simp only [UnionFind.compressLoop, hget']
      by_cases h1 : x = uf.parentD x
      · rw [if_pos (by rw [hep', hpar]; exact h1)]
      · have h1' : ¬ (x = e'.parent) := by rw [hep', hpar]; exact h1
        rw [if_neg h1']
        rw [UnionFind.setParent_noop hget' hep']
        -- the walk is now at the representative; we need it to be in range,
        -- which follows from the success of the first compression loop
        have hrep_lt : uf.parentD x < uf'.size := by
          have hc2 := hc
          rcases uf.getElem_isSome hlt with ⟨e, hget⟩
          have hep : e.parent = uf.parentD x := (uf.parentD_eq hget).symm
          simp only [UnionFind.compressLoop, hget] at hc2
          have hxne : ¬ (x = e.parent) := by rw [hep]; exact h1
          rw [if_neg hxne] at hc2
          cases hget2 : (uf.setParent x (uf.parentD x)).backing[e.parent]? with
          | none => rw [hget2] at hc2; cases hc2
          | some e2 =>
            have hlt2 : e.parent < (uf.setParent x (uf.parentD x)).backing.length :=
              (List.getElem?_eq_some_iff.mp hget2).1
            have hsz2 : (uf.setParent x (uf.parentD x)).size = uf.size :=
              UnionFind.setParent_size uf x (uf.parentD x)
            have h5 : e.parent < uf.size := by rw [← hsz2]; exact hlt2
            rw [hsz, ← hep]
            exact h5
        rw [hep', hpar]
        rcases uf'.getElem_isSome hrep_lt with ⟨e2', hget2'⟩
        have he2' : e2'.parent = uf.parentD x := by
          have h3 := uf'.parentD_eq hget2'
          rw [hroot] at h3
          exact h3.symm
        simp only [hget2']
        rw [if_pos he2'.symm]
    have h4 := uf'.find_of_compress hlt' hcomp
    rw [hpar] at h4
    exact h4
  · have hle := not_lt.mp hlt
    rw [uf.find_oor hle] at h
    cases h
    exact uf.find_oor hle

/-- Claim C9: repeated calls of `find` on the same id, with no intervening
unions, return the same representative on every call (and in fact leave the
store untouched after the first call). -/
theorem claim_C9_find_idempotent (uf : UnionFind) (x : Nat) (o : Option Nat)
    (uf1 : UnionFind) (h : uf.find x = some (o, uf1)) :
    ∀ k, uf.findIter x k = some (o, uf1) := by
  intro k
  induction k with
  | zero => exact h
  | succ k ih =>
    simp only [UnionFind.findIter, ih]
    exact UnionFind.find_stable h

/-- Witness for claim C9 at a concrete input: four successive calls of
`find 0` on a fresh two-element store all return representative `0`. -/
theorem claim_C9_witness :
    (UnionFind.new 2).findIter 0 3 = some (some 0, UnionFind.new 2) :=
  claim_C9_find_idempotent (UnionFind.new 2) 0 (some 0) (UnionFind.new 2) (by decide) 3

/-! ### Preservation of the forest invariant -/

lemma UnionFind.parentIter_congr {u1 u2 : UnionFind}
    (h : ∀ j, u2.parentD j = u1.parentD j) :
    ∀ (k i : Nat), u2.parentIter k i = u1.parentIter k i := by
  intro k
  induction k with
  | zero => intro i; rfl
  | succ k ih =>
    intro i
    show u2.parentIter k (u2.parentD i) = u1.parentIter k (u1.parentD i)
    rw [h i, ih]

lemma UnionFind.rooted_congr {u1 u2 : UnionFind}
    (h : ∀ j, u2.parentD j = u1.parentD j) (hs : u2.size = u1.size)
    (hr : u1.Rooted) : u2.Rooted := by
  intro i hi
  obtain ⟨k, hk⟩ := hr i (hs ▸ hi)
  refine ⟨k, ?_⟩
  show u2.parentD (u2.parentIter k i) = u2.parentIter k i
  rw [UnionFind.parentIter_congr h, h]
  exact hk

/-- Transport of root-reachability across a single parent update: if in the
updated store the changed element `c` points at `r` and `r` is a root, then
every element that could reach a root before can still reach one. -/
lemma UnionFind.rooted_update {uf uf1 : UnionFind} {c r : Nat}
    (hne : ∀ j, j ≠ c → uf1.parentD j = uf.parentD j)
    (hcp : uf1.parentD c = r) (hr : uf1.isRoot r) :
    ∀ (k i : Nat), uf.isRoot (uf.parentIter k i) →
      ∃ m, uf1.isRoot (uf1.parentIter m i) := by
  intro k
  induction k with
  | zero =>
    intro i hi
    by_cases hic : i = c
    · subst hic
      refine ⟨1, ?_⟩
      show uf1.isRoot (uf1.parentIter 0 (uf1.parentD i))
      rw [hcp]
      exact hr
    · refine ⟨0, ?_⟩
      show uf1.parentD i = i
      rw [hne i hic]
      exact hi
  | succ k ih =>
    intro i hi
    by_cases hic : i = c
    · subst hic
      refine ⟨1, ?_⟩
      show uf1.isRoot (uf1.parentIter 0 (uf1.parentD i))
      rw [hcp]
      exact hr
    · obtain ⟨m, hm⟩ := ih (uf.parentD i) hi
      refine ⟨m + 1, ?_⟩
      show uf1.isRoot (uf1.parentIter m (uf1.parentD i))
      rw [hne i hic]
      exact hm

/-- Setting the parent of an in-range element `c` to `r` preserves the
forest invariant, provided `r` is a root already or the write makes it one
(`r = c`). -/
lemma UnionFind.rooted_setParent {uf : UnionFind} {c r : Nat} (hc : c < uf.size)
    (hcr : uf.isRoot r ∨ r = c) (h : uf.Rooted) :
    (uf.setParent c r).Rooted ∧ (uf.setParent c r).isRoot r := by
  have hcp : (uf.setParent c r).parentD c = r := UnionFind.setParent_parentD_self r hc
  have hne : ∀ j, j ≠ c → (uf.setParent c r).parentD j = uf.parentD j := by
    intro j hj
    exact UnionFind.setParent_parentD_ne r (fun hcj => hj hcj.symm)
  have hroot1 : (uf.setParent c r).isRoot r := by
    rcases hcr with hcr | hcr
    · by_cases hrc : r = c
      · subst hrc
        show (uf.setParent r r).parentD r = r
        rw [hcp]
      · show (uf.setParent c r).parentD r = r
        rw [hne r hrc]
        exact hcr
    · subst hcr
      show (uf.setParent r r).parentD r = r
      rw [hcp]
  refine ⟨?_, hroot1⟩
  intro i hi
  have hi2 : i < uf.size := by rw [← UnionFind.setParent_size uf c r]; exact hi
  obtain ⟨k, hk⟩ := h i hi2
  exact UnionFind.rooted_update hne hcp hroot1 k i hk

lemma UnionFind.compressLoop_rooted {fuel : Nat} :
    ∀ {uf : UnionFind} {c r : Nat} {uf' : UnionFind},
      uf.compressLoop c r fuel = some uf' → uf.Rooted →
      (uf.parentD c = r ∨ c = r ∨ uf.isRoot r) → uf'.Rooted := by
  induction fuel with
  | zero =>
    intro uf c r uf' h hr _
    simp only [UnionFind.compressLoop] at h
    cases h; exact hr
  | succ fuel ih =>
    intro uf c r uf' h hr hinv
    simp only [UnionFind.compressLoop] at h
    cases hget : uf.backing[c]? with
    | none => rw [hget] at h; cases h
    | some e =>
      rw [hget] at h
      simp only [] at h
      by_cases hce : c = e.parent
      · rw [if_pos hce] at h; cases h; exact hr
      · rw [if_neg hce] at h
        have hclt : c < uf.size := (List.getElem?_eq_some_iff.mp hget).1
        rcases hinv with hA | hB | hC
        · -- the stored parent of `c` is already `r`: the write is a no-op
          have hepr : e.parent = r := by rw [← uf.parentD_eq hget]; exact hA
          rw [UnionFind.setParent_noop hget hepr] at h
          exact ih h hr (Or.inr (Or.inl hepr))
        · subst hB
          obtain ⟨hr1, hroot1⟩ := UnionFind.rooted_setParent hclt (Or.inr rfl) hr
          exact ih h hr1 (Or.inr (Or.inr hroot1))
        · obtain ⟨hr1, hroot1⟩ := UnionFind.rooted_setParent hclt (Or.inl hC) hr
          exact ih h hr1 (Or.inr (Or.inr hroot1))

lemma UnionFind.find_rooted {uf : UnionFind} {id : Nat} {o : Option Nat}
    {uf' : UnionFind} (h : uf.find id = some (o, uf')) (hr : uf.Rooted) :
    uf'.Rooted := by
  by_cases hlt : id < uf.size
  · exact UnionFind.compressLoop_rooted (uf.find_some h hlt).2 hr (Or.inl rfl)
  · rw [uf.find_oor (not_lt.mp hlt)] at h; cases h; exact hr

/-! ### Inversion of `union` -/

/-- Full case analysis of a successful in-range `union` call. -/
lemma UnionFind.union_inv {uf : UnionFind} {e1 e2 : Nat} {uf' : UnionFind}
    (h : uf.union e1 e2 = some (uf', ()))
    (hn : ¬ (e1 ≥ uf.backing.length ∨ e2 ≥ uf.backing.length)) :
    ∃ rep1 uf1 rep2 uf2,
      uf.find e1 = some (some rep1, uf1) ∧
      uf1.find e2 = some (some rep2, uf2) ∧
      ((rep1 = rep2 ∧ uf' = uf2) ∨
       (rep1 ≠ rep2 ∧ ∃ el1 el2,
         uf2.backing[rep1]? = some el1 ∧ uf2.backing[rep2]? = some el2 ∧
         ((el1.rank < el2.rank ∧ uf' = uf2.setParent rep1 rep2) ∨
          (el2.rank < el1.rank ∧ uf' = uf2.setParent rep2 rep1) ∨
          (el1.rank = el2.rank ∧ ∃ el2b,
            (uf2.setParent rep1 rep2).backing[rep2]? = some el2b ∧
            uf' = (uf2.setParent rep1 rep2).setRank rep2 (el2b.rank + 1))))) := by
  unfold UnionFind.union at h
  rw [if_neg hn] at h
  rcases hf1 : uf.find e1 with _ | ⟨o1, uf1⟩
  · rw [hf1] at h; cases h
  · rw [hf1] at h
    simp only [] at h
    rcases ho1 : o1 with _ | rep1
    · rw [ho1] at h; cases h
    · rw [ho1] at h
      simp only [] at h
      rcases hf2 : uf1.find e2 with _ | ⟨o2, uf2⟩
      · rw [hf2] at h; cases h
      · rw [hf2] at h
        simp only [] at h
        rcases ho2 : o2 with _ | rep2
        · rw [ho2] at h; cases h
        · rw [ho2] at h
          simp only [] at h
          refine ⟨rep1, uf1, rep2, uf2, rfl, by rw [ho2] at hf2; exact hf2, ?_⟩
          by_cases hrr : rep1 = rep2
          · rw [if_pos hrr] at h
            cases h
            exact Or.inl ⟨hrr, rfl⟩
          · rw [if_neg hrr] at h
            refine Or.inr ⟨hrr, ?_⟩
            rcases hel1 : uf2.backing[rep1]? with _ | el1
            · rw [hel1] at h; cases h
            · rw [hel1] at h
              rcases hel2 : uf2.backing[rep2]? with _ | el2
              · rw [hel2] at h; cases h
              · rw [hel2] at h
                simp only [] at h
                refine ⟨el1, el2, rfl, rfl, ?_⟩
                by_cases hlt : el1.rank < el2.rank
                · rw [if_pos hlt] at h
                  cases h
                  exact Or.inl ⟨hlt, rfl⟩
                · rw [if_neg hlt] at h
                  by_cases hgt : el1.rank > el2.rank
                  · rw [if_pos hgt] at h
                    cases h
                    exact Or.inr (Or.inl ⟨hgt, rfl⟩)
                  · rw [if_neg hgt] at h
                    have heq : el1.rank = el2.rank := Nat.le_antisymm
                      (Nat.le_of_not_lt hgt) (Nat.le_of_not_lt hlt)
                    rcases hel2b : (uf2.setParent rep1 rep2).backing[rep2]? with _ | el2b
                    · rw [hel2b] at h; cases h
                    · rw [hel2b] at h
                      cases h
                      exact Or.inr (Or.inr ⟨heq, el2b, rfl, rfl⟩)

/-! ### `new`, `fresh` and range lemmas -/

lemma UnionFind.parentD_oob {uf : UnionFind} {i : Nat} (h : uf.size ≤ i) :
    uf.parentD i = i := by
  unfold UnionFind.parentD
  rw [List.getElem?_eq_none h]

lemma UnionFind.setParent_oob {uf : UnionFind} {i : Nat} (v : Nat) (h : uf.size ≤ i) :
    uf.setParent i v = uf := by
  unfold UnionFind.setParent
  rw [List.getElem?_eq_none h]

lemma UnionFind.new_size (n : Nat) : (UnionFind.new n).size = n := by
  simp [UnionFind.new, UnionFind.size]

lemma UnionFind.new_parentD (n : Nat) (i : Nat) : (UnionFind.new n).parentD i = i := by
  by_cases h : i < n
  · simp [UnionFind.new, UnionFind.parentD, List.getElem?_map, List.getElem?_range h]
  · exact UnionFind.parentD_oob (by rw [UnionFind.new_size]; exact not_lt.mp h)

lemma UnionFind.new_rooted (n : Nat) : (UnionFind.new n).Rooted := by
  intro i _
  exact ⟨0, UnionFind.new_parentD n i⟩

lemma UnionFind.new_inRange (n : Nat) : (UnionFind.new n).inRange := by
  intro i hi
  rw [UnionFind.new_parentD]
  exact hi

lemma UnionFind.fresh_size (uf : UnionFind) : (uf.fresh).1.size = uf.size + 1 := by
  simp [UnionFind.fresh, UnionFind.size]

lemma UnionFind.fresh_parentD (uf : UnionFind) (j : Nat) :
    (uf.fresh).1.parentD j = uf.parentD j := by
  unfold UnionFind.fresh UnionFind.parentD
  rcases Nat.lt_trichotomy j uf.backing.length with hj | hj | hj
  · rw [List.getElem?_append_left hj]
  · subst hj
    rw [List.getElem?_concat_length, List.getElem?_eq_none (le_refl _)]
  · rw [List.getElem?_eq_none (by simp; omega), List.getElem?_eq_none (by omega)]

lemma UnionFind.fresh_rooted {uf : UnionFind} (hr : uf.Rooted) : (uf.fresh).1.Rooted := by
  intro i hi
  by_cases hilt : i < uf.size
  · obtain ⟨k, hk⟩ := hr i hilt
    refine ⟨k, ?_⟩
    show (uf.fresh).1.parentD ((uf.fresh).1.parentIter k i) = (uf.fresh).1.parentIter k i
    rw [UnionFind.parentIter_congr (uf.fresh_parentD), uf.fresh_parentD]
    exact hk
  · refine ⟨0, ?_⟩
    show (uf.fresh).1.parentD i = i
    rw [uf.fresh_parentD]
    exact UnionFind.parentD_oob (not_lt.mp hilt)

lemma UnionFind.fresh_inRange {uf : UnionFind} (hin : uf.inRange) :
    (uf.fresh).1.inRange := by
  intro j hj
  rw [uf.fresh_parentD, uf.fresh_size]
  by_cases hjlt : j < uf.size
  · exact Nat.lt_succ_of_lt (hin j hjlt)
  · rw [UnionFind.parentD_oob (not_lt.mp hjlt)]
    rw [uf.fresh_size] at hj
    exact hj

lemma UnionFind.setParent_inRange {uf : UnionFind} {i v : Nat} (hv : v < uf.size)
    (hin : uf.inRange) : (uf.setParent i v).inRange := by
  intro j hj
  rw [UnionFind.setParent_size] at hj ⊢
  by_cases hij : i = j
  · subst hij
    by_cases hilt : i < uf.size
    · rw [UnionFind.setParent_parentD_self v hilt]
      exact hv
    · rw [UnionFind.setParent_oob v (not_lt.mp hilt)]
      exact hin i hj
  · rw [UnionFind.setParent_parentD_ne v hij]
    exact hin j hj

lemma UnionFind.setRank_inRange {uf : UnionFind} {i v : Nat}
    (hin : uf.inRange) : (uf.setRank i v).inRange := by
  intro j hj
  rw [UnionFind.setRank_size] at hj ⊢
  rw [UnionFind.setRank_parentD]
  exact hin j hj

lemma UnionFind.compressLoop_inRange {fuel : Nat} :
    ∀ {uf : UnionFind} {c r : Nat} {uf' : UnionFind},
      uf.compressLoop c r fuel = some uf' → uf.inRange → r < uf.size →
      uf'.inRange := by
  induction fuel with
  | zero =>
    intro uf c r uf' h hin _
    simp only [UnionFind.compressLoop] at h
    cases h; exact hin
  | succ fuel ih =>
    intro uf c r uf' h hin hv
    simp only [UnionFind.compressLoop] at h
    cases hget : uf.backing[c]? with
    | none => rw [hget] at h; cases h
    | some e =>
      rw [hget] at h
      simp only [] at h
      by_cases hce : c = e.parent
      · rw [if_pos hce] at h; cases h; exact hin
      · rw [if_neg hce] at h
        refine ih h (UnionFind.setParent_inRange hv hin) ?_
        rw [UnionFind.setParent_size]
        exact hv

lemma UnionFind.compressLoop_isSome (fuel : Nat) :
    ∀ {uf : UnionFind} {c r : Nat}, uf.inRange → c < uf.size → r < uf.size →
      ∃ uf', uf.compressLoop c r fuel = some uf' := by
  induction fuel with
  | zero => intro uf c r _ _ _; exact ⟨uf, rfl⟩
  | succ fuel ih =>
    intro uf c r hin hc hv
    rcases uf.getElem_isSome hc with ⟨e, hget⟩
    by_cases hce : c = e.parent
    · refine ⟨uf, ?_⟩
      simp only [UnionFind.compressLoop, hget]
      rw [if_pos hce]
    · have hep : e.parent < uf.size := by
        rw [← uf.parentD_eq hget]
        exact hin c hc
      have hin1 : (uf.setParent c r).inRange := UnionFind.setParent_inRange hv hin
      have hc1 : e.parent < (uf.setParent c r).size := by
        rw [UnionFind.setParent_size]; exact hep
      have hv1 : r < (uf.setParent c r).size := by
        rw [UnionFind.setParent_size]; exact hv
      obtain ⟨uf', h⟩ := ih hin1 hc1 hv1
      refine ⟨uf', ?_⟩
      simp only [UnionFind.compressLoop, hget]
      rw [if_neg hce]
      exact h

lemma UnionFind.find_inRange {uf : UnionFind} {id : Nat} {o : Option Nat}
    {uf' : UnionFind} (h : uf.find id = some (o, uf')) (hin : uf.inRange) :
    uf'.inRange := by
  by_cases hlt : id < uf.size
  · exact UnionFind.compressLoop_inRange (uf.find_some h hlt).2 hin (hin id hlt)
  · rw [uf.find_oor (not_lt.mp hlt)] at h; cases h; exact hin

lemma UnionFind.find_total_lt {uf : UnionFind} (hin : uf.inRange) {id : Nat}
    (hlt : id < uf.size) :
    ∃ uf', uf.find id = some (some (uf.parentD id), uf') := by
  obtain ⟨uf', hc⟩ :=
    UnionFind.compressLoop_isSome (2 * uf.backing.length + 2) hin hlt (hin id hlt)
  exact ⟨uf', uf.find_of_compress hlt hc⟩

lemma UnionFind.union_rooted {uf : UnionFind} {e1 e2 : Nat} {uf' : UnionFind}
    (h : uf.union e1 e2 = some (uf', ())) (hr : uf.Rooted) : uf'.Rooted := by
  by_cases hoor : e1 ≥ uf.backing.length ∨ e2 ≥ uf.backing.length
  · unfold UnionFind.union at h
    rw [if_pos hoor] at h
    cases h; exact hr
  · obtain ⟨rep1, uf1, rep2, uf2, hf1, hf2, hcase⟩ := UnionFind.union_inv h hoor
    have hr1 : uf1.Rooted := UnionFind.find_rooted hf1 hr
    have hr2 : uf2.Rooted := UnionFind.find_rooted hf2 hr1
    have hroot2 : uf2.isRoot rep2 := UnionFind.find_rep_isRoot hf2
    have hroot1 : uf2.isRoot rep1 :=
      UnionFind.find_isRoot hf2 (UnionFind.find_rep_isRoot hf1)
    rcases hcase with ⟨_, huf'⟩ | ⟨hne, el1, el2, hel1, hel2, hcase2⟩
    · subst huf'; exact hr2
    · rcases hcase2 with ⟨_, huf'⟩ | ⟨_, huf'⟩ | ⟨_, el2b, hel2b, huf'⟩
      · subst huf'
        have hc1 : rep1 < uf2.size := (List.getElem?_eq_some_iff.mp hel1).1
        exact (UnionFind.rooted_setParent hc1 (Or.inl hroot2) hr2).1
      · subst huf'
        have hc2 : rep2 < uf2.size := (List.getElem?_eq_some_iff.mp hel2).1
        exact (UnionFind.rooted_setParent hc2 (Or.inl hroot1) hr2).1
      · subst huf'
        have hc1 : rep1 < uf2.size := (List.getElem?_eq_some_iff.mp hel1).1
        have hr3 := (UnionFind.rooted_setParent hc1 (Or.inl hroot2) hr2).1
        exact UnionFind.rooted_congr
          (fun j => UnionFind.setRank_parentD (uf2.setParent rep1 rep2) rep2 (el2b.rank + 1) j)
          (UnionFind.setRank_size (uf2.setParent rep1 rep2) rep2 (el2b.rank + 1)) hr3

lemma UnionFind.union_inRange {uf : UnionFind} {e1 e2 : Nat} {uf' : UnionFind}
    (h : uf.union e1 e2 = some (uf', ())) (hin : uf.inRange) : uf'.inRange := by
  by_cases hoor : e1 ≥ uf.backing.length ∨ e2 ≥ uf.backing.length
  · unfold UnionFind.union at h
    rw [if_pos hoor] at h
    cases h; exact hin
  · obtain ⟨rep1, uf1, rep2, uf2, hf1, hf2, hcase⟩ := UnionFind.union_inv h hoor
    have hin1 : uf1.inRange := UnionFind.find_inRange hf1 hin
    have hin2 : uf2.inRange := UnionFind.find_inRange hf2 hin1
    rcases hcase with ⟨_, huf'⟩ | ⟨hne, el1, el2, hel1, hel2, hcase2⟩
    · subst huf'; exact hin2
    · have hc1 : rep1 < uf2.size := (List.getElem?_eq_some_iff.mp hel1).1
      have hc2 : rep2 < uf2.size := (List.getElem?_eq_some_iff.mp hel2).1
      rcases hcase2 with ⟨_, huf'⟩ | ⟨_, huf'⟩ | ⟨_, el2b, hel2b, huf'⟩
      · subst huf'; exact UnionFind.setParent_inRange hc2 hin2
      · subst huf'; exact UnionFind.setParent_inRange hc1 hin2
      · subst huf'
        exact UnionFind.setRank_inRange (UnionFind.setParent_inRange hc2 hin2)

lemma UnionFind.union_isSome (uf : UnionFind) (hin : uf.inRange) (e1 e2 : Nat) :
    (uf.union e1 e2).isSome := by
  by_cases hoor : e1 ≥ uf.backing.length ∨ e2 ≥ uf.backing.length
  · unfold UnionFind.union
    rw [if_pos hoor]
    rfl
  · push_neg at hoor
    obtain ⟨h1lt, h2lt⟩ := hoor
    obtain ⟨uf1, hf1⟩ := UnionFind.find_total_lt hin h1lt
    have hin1 : uf1.inRange := UnionFind.find_inRange hf1 hin
    have hsz1 : uf1.size = uf.size := UnionFind.find_size hf1
    have h2lt' : e2 < uf1.size := by rw [hsz1]; exact h2lt
    obtain ⟨uf2, hf2⟩ := UnionFind.find_total_lt hin1 h2lt'
    have hin2 : uf2.inRange := UnionFind.find_inRange hf2 hin1
    have hsz2 : uf2.size = uf1.size := UnionFind.find_size hf2
    have hr1lt : uf.parentD e1 < uf2.size := by
      rw [hsz2, hsz1]; exact hin e1 h1lt
    have hr2lt : uf1.parentD e2 < uf2.size := by
      rw [hsz2]; exact hin1 e2 h2lt'
    rcases uf2.getElem_isSome hr1lt with ⟨el1, hel1⟩
    rcases uf2.getElem_isSome hr2lt with ⟨el2, hel2⟩
    have hn2 : ¬ (e1 ≥ uf.backing.length ∨ e2 ≥ uf.backing.length) := by
      push_neg
      exact ⟨h1lt, h2lt⟩
    unfold UnionFind.union
    rw [if_neg hn2]
    simp only [hf1, hf2]
    by_cases hrr : uf.parentD e1 = uf1.parentD e2
    · rw [if_pos hrr]; rfl
    · rw [if_neg hrr]
      simp only [hel1, hel2]
      by_cases hlt2 : el1.rank < el2.rank
      · rw [if_pos hlt2]; rfl
      · rw [if_neg hlt2]
        by_cases hgt2 : el1.rank > el2.rank
        · rw [if_pos hgt2]; rfl
        · rw [if_neg hgt2]
          have hr2lt' : uf1.parentD e2 < (uf2.setParent (uf.parentD e1) (uf1.parentD e2)).size := by
            rw [UnionFind.setParent_size]; exact hr2lt
          rcases (uf2.setParent (uf.parentD e1) (uf1.parentD e2)).getElem_isSome hr2lt'
            with ⟨el2b, hel2b⟩
          simp only [hel2b]
          rfl

lemma UnionFind.find_isSome (uf : UnionFind) (hin : uf.inRange) (id : Nat) :
    (uf.find id).isSome := by
  by_cases hlt : id < uf.size
  · obtain ⟨uf', h⟩ := UnionFind.find_total_lt hin hlt
    rw [h]; rfl
  · rw [uf.find_oor (not_lt.mp hlt)]; rfl

/-- Every store reachable by the public API keeps all parent fields in
range and satisfies the forest invariant. -/
lemma UnionFind.reachable_inv {uf : UnionFind} (h : uf.Reachable) :
    uf.inRange ∧ uf.Rooted := by
  induction h with
  | mkNew n => exact ⟨UnionFind.new_inRange n, UnionFind.new_rooted n⟩
  | mkFresh hr ih => exact ⟨UnionFind.fresh_inRange ih.1, UnionFind.fresh_rooted ih.2⟩
  | stepFind hr hfind ih =>
    exact ⟨UnionFind.find_inRange hfind ih.1, UnionFind.find_rooted hfind ih.2⟩
  | stepUnion hr hunion ih =>
    exact ⟨UnionFind.union_inRange hunion ih.1, UnionFind.union_rooted hunion ih.2⟩

/-- Claim C8: in every reachable store, following parent links from any
in-range element reaches a root (an element whose parent is its own id) in
a finite number of steps; since the walk from any element is deterministic,
this also rules out any cycle other than the self-loop at a root, and its
statement over all reachable stores is exactly preservation under `new`,
`fresh`, `find` and `union`. -/
theorem claim_C8_forest_invariant (uf : UnionFind) (h : uf.Reachable) :
    ∀ i, i < uf.size → ∃ k, uf.isRoot (uf.parentIter k i) :=
  (UnionFind.reachable_inv h).2

/-- Witness for claim C8 on the concrete reachable store `ufA`, whose
parent chain from `0` is `0 → 1 → 3`. -/
theorem claim_C8_witness : ∃ k, ufA.isRoot (ufA.parentIter k 0) :=
  claim_C8_forest_invariant ufA reachable_ufA 0 (by decide)

/-- Claim C10: in every reachable store every parent field is strictly
below the store's size, and `find` and `union` never panic for any
arguments: no array access goes out of bounds and the two `unwrap` calls
inside `union` never fail (a panic is modelled by the operation returning
`none`). -/
theorem claim_C10_no_panics (uf : UnionFind) (h : uf.Reachable) :
    (∀ i, i < uf.size → uf.parentD i < uf.size) ∧
    (∀ id, (uf.find id).isSome) ∧
    (∀ e1 e2, (uf.union e1 e2).isSome) := by
  obtain ⟨hin, _⟩ := UnionFind.reachable_inv h
  exact ⟨hin, fun id => UnionFind.find_isSome uf hin id,
    fun e1 e2 => UnionFind.union_isSome uf hin e1 e2⟩

/-- Witness for claim C10 on the concrete reachable store `ufA`, including
out-of-range arguments. -/
theorem claim_C10_witness : (ufA.find 7).isSome ∧ (ufA.union 1 9).isSome := by
  have h := claim_C10_no_panics ufA reachable_ufA
  exact ⟨h.2.1 7, h.2.2 1 9⟩

/-- Claim C4 (amended): for every store and every id at or beyond the
current size, `find` returns `None` (the no-such-element signal) and leaves
the store unchanged, while `union` with that id on either side returns
normally — its return type is unit, so it reports no error — and also
leaves the store unchanged. -/
theorem claim_C4_amended_out_of_range :
    ∀ (uf : UnionFind) (id : Nat), uf.size ≤ id →
      uf.find id = some (none, uf) ∧
      (∀ e2, uf.union id e2 = some (uf, ()) ∧ uf.union e2 id = some (uf, ())) := by
  intro uf id h
  have h2 : id ≥ uf.backing.length := h
  refine ⟨uf.find_oor h, fun e2 => ⟨?_, ?_⟩⟩
  · unfold UnionFind.union
    rw [if_pos (Or.inl h2)]
  · unfold UnionFind.union
    rw [if_pos (Or.inr h2)]

/-- Witness for the amended claim C4 at a concrete input. -/
theorem claim_C4_amended_witness :
    (UnionFind.new 2).find 5 = some (none, UnionFind.new 2) ∧
    (UnionFind.new 2).union 5 0 = some (UnionFind.new 2, ()) := by
  have h := claim_C4_amended_out_of_range (UnionFind.new 2) 5 (by decide)
  exact ⟨h.1, (h.2 0).1⟩

/-- The store produced by `union 0 1` on `UnionFind.new 2` (a rank tie:
`0` is attached under `1` and `1`'s rank becomes 1). -/
def ufTie : UnionFind := ⟨[⟨1, 0⟩, ⟨1, 1⟩]⟩

/-- Claim C5 (amended): `union` returns no value — the source's return type
is unit — and the surviving representative of the merged set (the element
that remains a root in the final store, with the losing representative's
parent set to it) is the higher-rank of the two representatives computed by
the two `find` calls, `rep2` winning a rank tie. -/
theorem claim_C5_amended_survivor :
    ∀ (uf : UnionFind) (e1 e2 rep1 rep2 : Nat) (uf1 uf2 uf' : UnionFind) (u : Unit),
      uf.find e1 = some (some rep1, uf1) →
      uf1.find e2 = some (some rep2, uf2) →
      rep1 ≠ rep2 →
      uf.union e1 e2 = some (uf', u) →
      u = () ∧
      uf'.isRoot (if uf2.rankD rep1 ≤ uf2.rankD rep2 then rep2 else rep1) ∧
      uf'.parentD (if uf2.rankD rep1 ≤ uf2.rankD rep2 then rep1 else rep2)
        = (if uf2.rankD rep1 ≤ uf2.rankD rep2 then rep2 else rep1) := by
  intro uf e1 e2 rep1 rep2 uf1 uf2 uf' u hf1 hf2 hne hu
  cases u
  refine ⟨rfl, ?_⟩
  have h1lt : e1 < uf.size := by
    by_contra hh
    rw [uf.find_oor (not_lt.mp hh)] at hf1
    simp at hf1
  have h2lt : e2 < uf1.size := by
    by_contra hh
    rw [uf1.find_oor (not_lt.mp hh)] at hf2
    simp at hf2
  have hoor : ¬ (e1 ≥ uf.backing.length ∨ e2 ≥ uf.backing.length) := by
    push_neg
    refine ⟨h1lt, ?_⟩
    have := UnionFind.find_size hf1
    show e2 < uf.size
    rw [← this]
    exact h2lt
  obtain ⟨rep1', uf1', rep2', uf2', hf1', hf2', hcase⟩ := UnionFind.union_inv hu hoor
  obtain ⟨hr1, hu1⟩ : rep1 = rep1' ∧ uf1 = uf1' := by
    have := hf1.symm.trans hf1'
    simpa using this
  subst hr1
  subst hu1
  obtain ⟨hr2, hu2⟩ : rep2 = rep2' ∧ uf2 = uf2' := by
    have := hf2.symm.trans hf2'
    simpa using this
  subst hr2
  subst hu2
  rcases hcase with ⟨heq, _⟩ | ⟨_, el1, el2, hel1, hel2, hcase2⟩
  · exact absurd heq hne
  · have hrk1 : uf2.rankD rep1 = el1.rank := uf2.rankD_eq hel1
    have hrk2 : uf2.rankD rep2 = el2.rank := uf2.rankD_eq hel2
    have hc1 : rep1 < uf2.size := (List.getElem?_eq_some_iff.mp hel1).1
    have hc2 : rep2 < uf2.size := (List.getElem?_eq_some_iff.mp hel2).1
    have hroot2 : uf2.isRoot rep2 := UnionFind.find_rep_isRoot hf2
    have hroot1 : uf2.isRoot rep1 :=
      UnionFind.find_isRoot hf2 (UnionFind.find_rep_isRoot hf1)
    rcases hcase2 with ⟨hlt, huf'⟩ | ⟨hgt, huf'⟩ | ⟨heq, el2b, hel2b, huf'⟩
    · subst huf'
      have hcond : uf2.rankD rep1 ≤ uf2.rankD rep2 := by
        rw [hrk1, hrk2]; exact le_of_lt hlt
      simp only [if_pos hcond]
      constructor
      · show (uf2.setParent rep1 rep2).parentD rep2 = rep2
        rw [UnionFind.setParent_parentD_ne rep2 hne]
        exact hroot2
      · exact UnionFind.setParent_parentD_self rep2 hc1
    · subst huf'
      have hcond : ¬ (uf2.rankD rep1 ≤ uf2.rankD rep2) := by
        rw [hrk1, hrk2]; exact not_le.mpr hgt
      simp only [if_neg hcond]
      constructor
      · show (uf2.setParent rep2 rep1).parentD rep1 = rep1
        rw [UnionFind.setParent_parentD_ne rep1 (fun hh => hne hh.symm)]
        exact hroot1
      · exact UnionFind.setParent_parentD_self rep1 hc2
    · subst huf'
      have hcond : uf2.rankD rep1 ≤ uf2.rankD rep2 := by
        rw [hrk1, hrk2, heq]
      simp only [if_pos hcond]
      constructor
      · show ((uf2.setParent rep1 rep2).setRank rep2 (el2b.rank + 1)).parentD rep2 = rep2
        rw [UnionFind.setRank_parentD, UnionFind.setParent_parentD_ne rep2 hne]
        exact hroot2
      · show ((uf2.setParent rep1 rep2).setRank rep2 (el2b.rank + 1)).parentD rep1 = rep2
        rw [UnionFind.setRank_parentD]
        exact UnionFind.setParent_parentD_self rep2 hc1

/-- Witness for the amended claim C5: on `union 0 1` over a fresh
two-element store (a rank tie) the survivor is `1` and `0` now points at
it. -/
theorem claim_C5_amended_witness : ufTie.isRoot 1 ∧ ufTie.parentD 0 = 1 := by
  have h := claim_C5_amended_survivor (UnionFind.new 2) 0 1 0 1 (UnionFind.new 2)
    (UnionFind.new 2) ufTie () (by decide) (by decide) (by decide) (by decide)
  have h2 := h.2
  rw [if_pos (by decide)] at h2
  exact h2

lemma UnionFind.new_rankD (n j : Nat) : (UnionFind.new n).rankD j = 0 := by
  by_cases h : j < n
  · simp [UnionFind.new, UnionFind.rankD, List.getElem?_map, List.getElem?_range h]
  · have h2 : (UnionFind.new n).size ≤ j := by
      rw [UnionFind.new_size]; exact not_lt.mp h
    unfold UnionFind.rankD
    rw [List.getElem?_eq_none h2]

lemma UnionFind.fresh_rankD {uf : UnionFind} {j : Nat} (h : j < uf.size) :
    (uf.fresh).1.rankD j = uf.rankD j := by
  unfold UnionFind.fresh UnionFind.rankD
  rw [List.getElem?_append_left h]

/-- Claim C6: rank bookkeeping.  `find` never modifies a rank; `new` makes
every rank 0; `fresh` leaves every existing rank unchanged; and for a union
of two distinct representatives, the lower-rank root's parent is set to the
higher-rank root with no rank change, while on a rank tie `rep1`'s parent
is set to `rep2` and exactly `rep2`'s rank is incremented by one — in every
branch the description covers every parent and every rank field of the
resulting store. -/
theorem claim_C6_union_by_rank :
    (∀ (uf : UnionFind) (id : Nat) (o : Option Nat) (uf' : UnionFind),
        uf.find id = some (o, uf') → ∀ j, uf'.rankD j = uf.rankD j) ∧
    (∀ n j, (UnionFind.new n).rankD j = 0) ∧
    (∀ (uf : UnionFind) (j : Nat), j < uf.size → (uf.fresh).1.rankD j = uf.rankD j) ∧
    (∀ (uf : UnionFind) (e1 e2 rep1 rep2 : Nat) (uf1 uf2 uf' : UnionFind),
      uf.find e1 = some (some rep1, uf1) →
      uf1.find e2 = some (some rep2, uf2) →
      rep1 ≠ rep2 →
      uf.union e1 e2 = some (uf', ()) →
      uf2.isRoot rep1 ∧ uf2.isRoot rep2 ∧
      (if uf2.rankD rep1 < uf2.rankD rep2 then
        (∀ j, uf'.parentD j = if j = rep1 then rep2 else uf2.parentD j) ∧
        (∀ j, uf'.rankD j = uf2.rankD j)
      else if uf2.rankD rep2 < uf2.rankD rep1 then
        (∀ j, uf'.parentD j = if j = rep2 then rep1 else uf2.parentD j) ∧
        (∀ j, uf'.rankD j = uf2.rankD j)
      else
        (∀ j, uf'.parentD j = if j = rep1 then rep2 else uf2.parentD j) ∧
        (∀ j, uf'.rankD j = if j = rep2 then uf2.rankD rep2 + 1 else uf2.rankD j))) := by
  refine ⟨fun uf id o uf' h j => UnionFind.find_rankD h j,
    UnionFind.new_rankD,
    fun uf j h => UnionFind.fresh_rankD h, ?_⟩
  intro uf e1 e2 rep1 rep2 uf1 uf2 uf' hf1 hf2 hne hu
  have h1lt : e1 < uf.size := by
    by_contra hh
    rw [uf.find_oor (not_lt.mp hh)] at hf1
    simp at hf1
  have h2lt : e2 < uf1.size := by
    by_contra hh
    rw [uf1.find_oor (not_lt.mp hh)] at hf2
    simp at hf2
  have hoor : ¬ (e1 ≥ uf.backing.length ∨ e2 ≥ uf.backing.length) := by
    push_neg
    refine ⟨h1lt, ?_⟩
    have := UnionFind.find_size hf1
    show e2 < uf.size
    rw [← this]
    exact h2lt
  obtain ⟨rep1', uf1', rep2', uf2', hf1', hf2', hcase⟩ := UnionFind.union_inv hu hoor
  obtain ⟨hr1, hu1⟩ : rep1 = rep1' ∧ uf1 = uf1' := by
    have := hf1.symm.trans hf1'
    simpa using this
  subst hr1
  subst hu1
  obtain ⟨hr2, hu2⟩ : rep2 = rep2' ∧ uf2 = uf2' := by
    have := hf2.symm.trans hf2'
    simpa using this
  subst hr2
  subst hu2
  have hroot2 : uf2.isRoot rep2 := UnionFind.find_rep_isRoot hf2
  have hroot1 : uf2.isRoot rep1 :=
    UnionFind.find_isRoot hf2 (UnionFind.find_rep_isRoot hf1)
  refine ⟨hroot1, hroot2, ?_⟩
  rcases hcase with ⟨heq, _⟩ | ⟨_, el1, el2, hel1, hel2, hcase2⟩
  · exact absurd heq hne
  · have hrk1 : uf2.rankD rep1 = el1.rank := uf2.rankD_eq hel1
    have hrk2 : uf2.rankD rep2 = el2.rank := uf2.rankD_eq hel2
    have hc1 : rep1 < uf2.size := (List.getElem?_eq_some_iff.mp hel1).1
    have hc2 : rep2 < uf2.size := (List.getElem?_eq_some_iff.mp hel2).1
    rcases hcase2 with ⟨hlt, huf'⟩ | ⟨hgt, huf'⟩ | ⟨heq, el2b, hel2b, huf'⟩
    · subst huf'
      rw [if_pos (by rw [hrk1, hrk2]; exact hlt)]
      constructor
      · intro j
        by_cases hj : j = rep1
        · subst hj
          rw [if_pos rfl]
          exact UnionFind.setParent_parentD_self rep2 hc1
        · rw [if_neg hj]
          exact UnionFind.setParent_parentD_ne rep2 (fun hh => hj hh.symm)
      · intro j
        exact UnionFind.setParent_rankD uf2 rep1 rep2 j
    · subst huf'
      rw [if_neg (by rw [hrk1, hrk2]; exact Nat.lt_asymm hgt),
        if_pos (by rw [hrk1, hrk2]; exact hgt)]
      constructor
      · intro j
        by_cases hj : j = rep2
        · subst hj
          rw [if_pos rfl]
          exact UnionFind.setParent_parentD_self rep1 hc2
        · rw [if_neg hj]
          exact UnionFind.setParent_parentD_ne rep1 (fun hh => hj hh.symm)
      · intro j
        exact UnionFind.setParent_rankD uf2 rep2 rep1 j
    · subst huf'
      have hee : uf2.rankD rep1 = uf2.rankD rep2 := by rw [hrk1, hrk2, heq]
      rw [if_neg (by rw [hee]; exact lt_irrefl _),
        if_neg (by rw [hee]; exact lt_irrefl _)]
      have hrk2b : el2b.rank = uf2.rankD rep2 := by
        have h3 := (uf2.setParent rep1 rep2).rankD_eq hel2b
        rw [UnionFind.setParent_rankD] at h3
        exact h3.symm
      constructor
      · intro j
        rw [UnionFind.setRank_parentD]
        by_cases hj : j = rep1
        · subst hj
          rw [if_pos rfl]
          exact UnionFind.setParent_parentD_self rep2 hc1
        · rw [if_neg hj]
          exact UnionFind.setParent_parentD_ne rep2 (fun hh => hj hh.symm)
      · intro j
        by_cases hj : j = rep2
        · rw [if_pos hj, hj]
          have hc2b : rep2 < (uf2.setParent rep1 rep2).size := by
            rw [UnionFind.setParent_size]; exact hc2
          rw [UnionFind.setRank_rankD_self (el2b.rank + 1) hc2b, hrk2b]
        · rw [if_neg hj]
          rw [UnionFind.setRank_rankD_ne (el2b.rank + 1) (fun hh => hj hh.symm)]
          exact UnionFind.setParent_rankD uf2 rep1 rep2 j

/-- Witness for claim C6: the rank-tie branch at `union 0 1` on a fresh
two-element store increments exactly the survivor's rank. -/
theorem claim_C6_witness :
    ufTie.parentD 0 = 1 ∧ ufTie.rankD 1 = (UnionFind.new 2).rankD 1 + 1 := by
  have h := claim_C6_union_by_rank.2.2.2 (UnionFind.new 2) 0 1 0 1 (UnionFind.new 2)
    (UnionFind.new 2) ufTie (by decide) (by decide) (by decide) (by decide)
  have h3 := h.2.2
  rw [if_neg (by decide), if_neg (by decide)] at h3
  refine ⟨?_, ?_⟩
  · have h4 := h3.1 0
    rw [if_pos rfl] at h4
    exact h4
  · have h5 := h3.2 1
    rw [if_pos rfl] at h5
    exact h5
